import Mathlib

/-
  Verification of the Voice-Control Campus Assistance core modules.

  The Python sources under modules/ are shallowly embedded below:
  - nlp_processor.py   : preprocess_text, identify_intent, extract_entities
  - response_generator.py : cyclic responses, _handle_timetable
  - data_handler.py    : get_timetable, get_faq_answer

  Strings are modelled as Lean strings, operated on through their
  character lists.  Python regular-expression constructs used by the
  source are each of a simple shape (plain literal, anchored literal,
  anchored literal with word boundary, or A.*B) and are modelled by a
  dedicated matcher.  Python \w and \s character classes are modelled
  over their ASCII portions, which is the alphabet the program uses.
-/

namespace Campus

/-- Test whether the first list is an initial segment of the second,
mirroring Python startswith on character lists. -/
def leadsWith : List Char → List Char → Bool
  | [], _ => true
  | _ :: _, [] => false
  | a :: as, b :: bs => a == b && leadsWith as bs

/-- Python substring test: needle in hay. -/
def containsList (needle : List Char) : List Char → Bool
  | [] => needle.isEmpty
  | c :: rest => leadsWith needle (c :: rest) || containsList needle rest

/-- Substring test on strings, argument order: hay, needle. -/
def strContains (hay needle : String) : Bool :=
  containsList needle.data hay.data

/-- ASCII portion of the Python regex class backslash-s. -/
def isSpaceChar (c : Char) : Bool :=
  c == ' ' || c == '\t' || c == '\n' || c == '\r' || c == '\x0b' || c == '\x0c'

/-- ASCII portion of the Python regex class backslash-w. -/
def isWordChar (c : Char) : Bool :=
  c.isAlphanum || c == '_'

/-- Lower-casing of a single character, as Python str.lower on ASCII. -/
def lowerChar (c : Char) : Char := c.toLower

/-- Lower-casing of a whole string. -/
def strLower (s : String) : String := ⟨s.data.map lowerChar⟩

/-- Python str.strip: remove leading and trailing whitespace. -/
def stripList (l : List Char) : List Char :=
  ((l.dropWhile isSpaceChar).reverse.dropWhile isSpaceChar).reverse

/-- One pass of re.sub collapsing each whitespace run to a single space;
the flag records whether the previous character was whitespace. -/
def collapseAux : Bool → List Char → List Char
  | _, [] => []
  | prevSpace, c :: rest =>
    if isSpaceChar c then
      if prevSpace then collapseAux true rest
      else ' ' :: collapseAux true rest
    else c :: collapseAux false rest

/-- re.sub of one-or-more whitespace by a single space. -/
def collapseWS (l : List Char) : List Char := collapseAux false l

/-- re.sub removing every character that is not a word character,
whitespace, or an apostrophe. -/
def removeSpecial (l : List Char) : List Char :=
  l.filter (fun c => isWordChar c || isSpaceChar c || c == '\x27')

/-- Embedding of IntentProcessor.preprocess_text: lower-case, strip,
collapse whitespace runs, then drop special characters. -/
def preprocessText (s : String) : String :=
  if s.isEmpty then ""
  else ⟨removeSpecial (collapseWS (stripList (s.data.map lowerChar)))⟩

/-- Wrapper making the Python None case explicit: a missing argument is
falsy and yields the empty string, as does the empty string itself. -/
def preprocessTextOpt : Option String → String
  | none => ""
  | some s => preprocessText s

/-- Two adjacent whitespace characters occur somewhere in the list. -/
def adjacentWS : List Char → Bool
  | a :: b :: rest => (isSpaceChar a && isSpaceChar b) || adjacentWS (b :: rest)
  | _ => false

/-- Shapes of the regular expressions appearing in the intent table:
gap a b stands for the pattern a.*b, lit for a plain literal searched
anywhere, anchored for a caret-anchored literal, and anchoredWB for a
caret-anchored literal followed by a word boundary. -/
inductive Pat where
  | gap : String → String → Pat
  | lit : String → Pat
  | anchored : String → Pat
  | anchoredWB : String → Pat
deriving DecidableEq

/-- Search for b allowing only non-newline characters before it, the
semantics of the dot-star gap of re.search. -/
def midSearch (b : List Char) : List Char → Bool
  | [] => b.isEmpty
  | c :: rest => leadsWith b (c :: rest) || (c != '\n' && midSearch b rest)

/-- re.search of a.*b: a matches at some position, then b matches later
with only non-newline characters in between. -/
def gapSearch (a b : List Char) : List Char → Bool
  | [] => a.isEmpty && midSearch b []
  | c :: rest =>
    (leadsWith a (c :: rest) && midSearch b ((c :: rest).drop a.length))
      || gapSearch a b rest

/-- Evaluation of re.search for each pattern shape over a text. -/
def patMatch (p : Pat) (t : List Char) : Bool :=
  match p with
  | .gap a b => gapSearch a.data b.data t
  | .lit s => containsList s.data t
  | .anchored s => leadsWith s.data t
  | .anchoredWB s =>
    leadsWith s.data t &&
      (match t.drop s.length with
       | [] => true
       | c :: _ => !isWordChar c)

/-- One intent of the fixed table: a name, keywords, and patterns. -/
structure IntentDef where
  name : String
  keywords : List String
  patterns : List Pat
deriving DecidableEq

/-- The fixed intent table of IntentProcessor, in declaration order. -/
def intents : List IntentDef := [
  { name := "timetable",
    keywords := ["timetable", "class", "schedule", "lecture", "period",
                 "timing", "classes", "today", "tomorrow", "when"],
    patterns := [.gap "what" "class", .gap "when" "class",
                 .gap "today" "schedule", .gap "tomorrow" "schedule",
                 .gap "class" "timing", .gap "schedule" "for"] },
  { name := "exam",
    keywords := ["exam", "examination", "test", "internal", "semester",
                 "exam schedule", "exam date", "exam time", "exams"],
    patterns := [.gap "when" "exam", .gap "exam" "schedule",
                 .gap "exam" "date", .gap "next" "exam",
                 .gap "upcoming" "exam"] },
  { name := "department",
    keywords := ["department", "hod", "head", "faculty", "professor",
                 "teacher", "staff", "office", "contact", "phone"],
    patterns := [.gap "who" "hod", .gap "department" "info",
                 .gap "contact" "department", .gap "about" "department"] },
  { name := "facility",
    keywords := ["library", "canteen", "hostel", "sports", "gym",
                 "medical", "hospital", "bus", "transport", "wifi"],
    patterns := [.gap "where" "library", .gap "library" "timing",
                 .gap "canteen" "open", .gap "hostel" "timing",
                 .gap "bus" "route"] },
  { name := "event",
    keywords := ["event", "fest", "cultural", "technical", "seminar",
                 "workshop", "placement", "drive", "program"],
    patterns := [.gap "upcoming" "event", .gap "next" "fest",
                 .gap "when" "placement"] },
  { name := "faq",
    keywords := ["leave", "fee", "certificate", "attendance", "scholarship",
                 "apply", "bonafide", "rules", "how to", "procedure"],
    patterns := [.gap "how" "apply", .gap "what" "fee",
                 .gap "attendance" "requirement"] },
  { name := "greeting",
    keywords := ["hello", "hi", "hey", "good morning", "good afternoon",
                 "good evening", "help", "assist"],
    patterns := [.anchored "hello", .anchoredWB "hi", .anchored "hey"] },
  { name := "exit",
    keywords := ["bye", "goodbye", "exit", "quit", "stop", "thank you",
                 "thanks", "done"],
    patterns := [.lit "bye", .lit "exit", .lit "quit"] }
]

/-- Score of one intent on a text: one point per keyword occurring as a
substring, two points per pattern matching. -/
def intentScore (d : IntentDef) (t : List Char) : Nat :=
  (d.keywords.filter (fun k => containsList k.data t)).length
    + 2 * (d.patterns.filter (fun p => patMatch p t)).length

/-- Selection of the best intent: fold over the table keeping the
first intent attaining the maximal score, mirroring the Python max over
the insertion-ordered score dictionary. -/
def pickBest (t : List Char) : List IntentDef → Option (IntentDef × Nat)
  | [] => none
  | d :: ds =>
    match pickBest t ds with
    | none => some (d, intentScore d t)
    | some (d2, s2) =>
      if s2 > intentScore d t then some (d2, s2) else some (d, intentScore d t)

/-- Embedding of IntentProcessor.identify_intent: preprocess, score each
intent, return the first maximal intent with its normalized confidence,
or unknown with confidence zero. -/
def identifyIntent (text : String) : String × ℚ :=
  let t := (preprocessText text).data
  if t.isEmpty then ("unknown", 0)
  else
    match pickBest t intents with
    | none => ("unknown", 0)
    | some (d, s) =>
      if s > 0 then
        let maxPossible : ℚ := (d.keywords.length : ℚ) + 2 * (d.patterns.length : ℚ)
        (d.name, min ((s : ℚ) / maxPossible) 1)
      else ("unknown", 0)

/-- Maximal intent score over a list of intent definitions. -/
def listMaxScore (t : List Char) (ds : List IntentDef) : Nat :=
  (ds.map (fun d => intentScore d t)).foldr Nat.max 0

/-- First intent of a list attaining a given score. -/
def firstWithScore (t : List Char) (m : Nat) (ds : List IntentDef) : Option IntentDef :=
  ds.find? (fun d => intentScore d t == m)

/-- Entity record produced by IntentProcessor.extract_entities. -/
structure EntitySet where
  department : Option String
  day : Option String
  subject : Option String
  facility : Option String
deriving DecidableEq

/-- Alias table mapping department aliases to canonical codes, in the
insertion order of the source dictionary. -/
def departmentMappings : List (String × String) := [
  ("cse", "CSE"), ("computer", "CSE"), ("computer science", "CSE"), ("cs", "CSE"),
  ("ece", "ECE"), ("electronics", "ECE"), ("communication", "ECE"), ("ec", "ECE"),
  ("mech", "MECH"), ("mechanical", "MECH"), ("me", "MECH"),
  ("civil", "CIVIL"), ("ce", "CIVIL"),
  ("eee", "EEE"), ("electrical", "EEE"), ("ee", "EEE")]

/-- Alias table for days.  The values for today and tomorrow are
computed by datetime.now() inside the constructor of IntentProcessor,
so they enter the table as fixed strings; they are parameters of the
embedding and every later call sees the same two values. -/
def dayMappings (todayName tomorrowName : String) : List (String × String) := [
  ("today", todayName),
  ("tomorrow", tomorrowName),
  ("monday", "monday"), ("mon", "monday"),
  ("tuesday", "tuesday"), ("tue", "tuesday"),
  ("wednesday", "wednesday"), ("wed", "wednesday"),
  ("thursday", "thursday"), ("thu", "thursday"),
  ("friday", "friday"), ("fri", "friday"),
  ("saturday", "saturday"), ("sat", "saturday"),
  ("sunday", "sunday"), ("sun", "sunday")]

/-- Facility names scanned by extract_entities, in source order. -/
def facilitiesList : List String :=
  ["library", "canteen", "hostel", "sports", "gym",
   "medical", "hospital", "bus", "transport"]

/-- First alias of the table occurring as a substring of the text,
returning its canonical value. -/
def firstMatch (maps : List (String × String)) (t : List Char) : Option String :=
  (maps.find? (fun kv => containsList kv.1.data t)).map (fun kv => kv.2)

/-- Embedding of IntentProcessor.extract_entities, parameterized by the
construction-time values of the today and tomorrow aliases. -/
def extractEntities (todayName tomorrowName : String) (text : String) : EntitySet :=
  let t := (preprocessText text).data
  { department := firstMatch departmentMappings t
    day := firstMatch (dayMappings todayName tomorrowName) t
    subject := none
    facility := facilitiesList.find? (fun f => containsList f.data t) }

/-- The seven lowercase weekday names. -/
def weekdays : List String :=
  ["monday", "tuesday", "wednesday", "thursday", "friday", "saturday", "sunday"]

/-- Canonical department codes. -/
def deptCodes : List String := ["CSE", "ECE", "MECH", "CIVIL", "EEE"]

/-- Greeting phrases of ResponseGenerator, in source order. -/
def greetings : List String := [
  "Hello! I\x27m your Campus Voice Assistant. How can I help you today?",
  "Hi there! Welcome to Campus Assistant. What would you like to know?",
  "Good day! I\x27m here to help you with campus information. What do you need?"]

/-- Farewell phrases of ResponseGenerator, in source order. -/
def farewells : List String := [
  "Goodbye! Have a great day!",
  "Thank you for using Campus Assistant. Bye!",
  "Take care! Feel free to ask me anytime."]

/-- Fallback phrases of ResponseGenerator, in source order. -/
def unknownResponses : List String := [
  "I\x27m sorry, I didn\x27t quite understand that. Could you please rephrase?",
  "I\x27m not sure what you\x27re asking. Try asking about classes, exams, departments, or facilities.",
  "Could you please be more specific? I can help with timetables, exams, department info, and campus facilities."]

/-- Embedding of ResponseGenerator._get_cyclic_response: the state is
the single counter response_count shared by every phrase list; the call
indexes the given list by the counter modulo its length and increments
the counter. -/
def getCyclicResponse (responses : List String) (count : Nat) : String × Nat :=
  (responses.getD (count % responses.length) "", count + 1)

/-- Which of the three cyclic phrase lists a call uses. -/
inductive CycList where
  | greeting
  | farewell
  | unknown
deriving DecidableEq

/-- The phrase list owned by each cyclic handler. -/
def listOf : CycList → List String
  | .greeting => greetings
  | .farewell => farewells
  | .unknown => unknownResponses

/-- Run of a sequence of cyclic handler calls from a given counter,
returning the phrases in order and the final counter. -/
def runCalls : List CycList → Nat → List String × Nat
  | [], n => ([], n)
  | c :: cs, n =>
    let r := getCyclicResponse (listOf c) n
    let rest := runCalls cs r.2
    (r.1 :: rest.1, rest.2)

/-- One FAQ record of the store: keywords, question, answer. -/
structure Faq where
  keywords : List String
  question : String
  answer : String
deriving DecidableEq

/-- Score of one FAQ record against the lowered query: the number of
its keywords occurring as substrings of the lowered query. -/
def faqScore (f : Faq) (queryLower : List Char) : Nat :=
  (f.keywords.filter (fun k => containsList k.data queryLower)).length

/-- The accumulating loop of DataHandler.get_faq_answer: the best match
and best score are updated only on a strictly larger score. -/
def faqFold (ql : List Char) : List Faq → Option Faq → Nat → Option Faq × Nat
  | [], best, bestScore => (best, bestScore)
  | f :: rest, best, bestScore =>
    if faqScore f ql > bestScore then faqFold ql rest (some f) (faqScore f ql)
    else faqFold ql rest best bestScore

/-- Rendering of the chosen FAQ record, as in the source. -/
def fmtFaq (f : Faq) : String :=
  "❓ " ++ f.question ++ "\n\n💡 " ++ f.answer

/-- Embedding of DataHandler.get_faq_answer over an explicit store: the
query alone is lowered, records are scanned in store order, and the
result is the rendered best record when its score is positive. -/
def getFaqAnswer (store : List Faq) (query : String) : Option String :=
  match faqFold (strLower query).data store none 0 with
  | (some f, bestScore) => if bestScore > 0 then some (fmtFaq f) else none
  | (none, _) => none

/-- Maximal FAQ score over a list of records. -/
def listFaqMax (ql : List Char) (qs : List Faq) : Nat :=
  (qs.map (fun f => faqScore f ql)).foldr Nat.max 0

/-- Case-insensitive substring test, lowering both sides; this is the
reading of the specification, compared against the source below. -/
def ciContains (hay needle : String) : Bool :=
  containsList (strLower needle).data (strLower hay).data

/-- One class slot of the timetable store. -/
structure ClassSlot where
  time : String
  subject : String
  room : String
  faculty : String
deriving DecidableEq

/-- Schedule of one day: an ordered association of department code to
its ordered class slots. -/
abbrev DaySchedule := List (String × List ClassSlot)

/-- The timetable store: an ordered association of day key to the
schedule of that day. -/
abbrev Timetable := List (String × DaySchedule)

/-- Lookup in an association list by key, mirroring a Python dict whose
keys are unique. -/
def alistFind (m : List (String × α)) (k : String) : Option α :=
  (m.find? (fun kv => kv.1 == k)).map (fun kv => kv.2)

/-- Python str.capitalize: first character upper-cased, rest lowered. -/
def capitalize (s : String) : String :=
  match s.data with
  | [] => ""
  | c :: rest => ⟨c.toUpper :: rest.map lowerChar⟩

/-- Python str.upper on a string. -/
def strUpper (s : String) : String := ⟨s.data.map Char.toUpper⟩

/-- Rendering of one class slot in the single-department branch. -/
def fmtSlotFull (c : ClassSlot) : String :=
  "⏰ " ++ c.time ++ "\n   📖 " ++ c.subject ++ "\n   🚪 Room: " ++ c.room
    ++ "\n   👨‍🏫 Faculty: " ++ c.faculty ++ "\n\n"

/-- Rendering of one class slot in the all-departments branch. -/
def fmtSlotShort (c : ClassSlot) : String :=
  "  ⏰ " ++ c.time ++ " - " ++ c.subject ++ " (" ++ c.room ++ ")\n"

/-- Rendering of one department block in the all-departments branch. -/
def fmtDeptBlock (kv : String × List ClassSlot) : String :=
  "📌 " ++ kv.1 ++ " Department:\n"
    ++ String.join (kv.2.map fmtSlotShort) ++ "\n"

/-- Rendering of the full schedule of a day, one block per department. -/
def fmtFullDay (day : String) (ds : DaySchedule) : String :=
  "📅 Timetable for " ++ capitalize day ++ ":\n\n"
    ++ String.join (ds.map fmtDeptBlock)

/-- Defaulting of a falsy day argument: Python treats both an absent
day and an empty string as falsy and substitutes the current weekday. -/
def dayOrDefault (currentDay : String) : Option String → String
  | none => currentDay
  | some d => if d == "" then currentDay else d

/-- Department branch of get_timetable once the day schedule is found:
a falsy department renders the full day, otherwise the upper-cased code
is looked up and rendered or reported missing. -/
def gtDept (d : String) (daySchedule : DaySchedule) : Option String → String
  | none => fmtFullDay d daySchedule
  | some dep =>
    if dep == "" then fmtFullDay d daySchedule
    else
      match alistFind daySchedule (strUpper dep) with
      | some schedule =>
        "📅 " ++ strUpper dep ++ " Schedule for " ++ capitalize d ++ ":\n\n"
          ++ String.join (schedule.map fmtSlotFull)
      | none =>
        "No schedule found for " ++ strUpper dep ++ " department on "
          ++ capitalize d ++ "."

/-- Day branch of get_timetable: an unrecognized lowered day key is
special-cased for sunday, otherwise the department branch runs. -/
def gtDay (tt : Timetable) (d : String) (department : Option String) : String :=
  match alistFind tt d with
  | none =>
    if d == "sunday" then "Sunday is a holiday. No classes scheduled."
    else "No timetable available for " ++ capitalize d ++ "."
  | some daySchedule => gtDept d daySchedule department

/-- Embedding of DataHandler.get_timetable.  The store and the current
weekday name are parameters; a falsy (absent or empty) day argument
defaults to the current weekday, the day is lowered, an unrecognized
day key is special-cased for sunday, and otherwise the schedule is
rendered for one department or for all of them. -/
def getTimetable (tt : Timetable) (currentDay : String)
    (day : Option String) (department : Option String) : String :=
  if tt.isEmpty then "Sorry, timetable data is not available."
  else gtDay tt (strLower (dayOrDefault currentDay day)) department

/-- Embedding of ResponseGenerator._handle_timetable: the extracted day
is overridden by the current tomorrow weekday whenever the raw text
contains the word tomorrow, then get_timetable is queried with the day
and department entities. -/
def handleTimetable (tt : Timetable) (currentDay tomorrowDay : String)
    (entities : EntitySet) (originalText : String) : String :=
  getTimetable tt currentDay
    (if containsList "tomorrow".data (strLower originalText).data then some tomorrowDay
     else entities.day)
    entities.department

/-- A one-day concrete store used to instantiate the timetable theorem
on explicit inputs. -/
def tinyTT : Timetable := [("monday", [("CSE", [])])]

/-
  Theorems settling the claims.
-/

/-- C9: from a fresh synthesizer, four consecutive greeting calls yield
the three distinct greeting phrases in list order and the fourth call
repeats the first: the round-robin index wraps modulo the list length. -/
theorem greeting_cycle_four_calls :
    (runCalls [CycList.greeting, CycList.greeting, CycList.greeting, CycList.greeting] 0).1
      = [greetings.getD 0 "", greetings.getD 1 "", greetings.getD 2 "", greetings.getD 0 ""]
    ∧ greetings.getD 0 "" ≠ greetings.getD 1 ""
    ∧ greetings.getD 0 "" ≠ greetings.getD 2 ""
    ∧ greetings.getD 1 "" ≠ greetings.getD 2 "" := by
  refine ⟨rfl, ?_, ?_, ?_⟩ <;> decide

/-- C10: the entity dictionary always carries a subject key and no
extraction path ever assigns it, so its value is always none. -/
theorem subject_entity_always_none (todayName tomorrowName text : String) :
    (extractEntities todayName tomorrowName text).subject = none := rfl

/-- C3 counterexample: the farewell list does not have its own counter.
A run consisting of a single farewell call returns the first farewell
phrase, but a greeting call followed by a farewell call returns the
second farewell phrase, although in both runs the farewell call is
preceded by zero farewell calls; the greeting call moved the farewell
position, because the source shares one response_count across lists. -/
theorem cyclic_counter_shared_counterexample :
    (runCalls [CycList.farewell] 0).1.getD 0 "" = farewells.getD 0 ""
    ∧ (runCalls [CycList.greeting, CycList.farewell] 0).1.getD 1 "" = farewells.getD 1 ""
    ∧ farewells.getD 0 "" ≠ farewells.getD 1 "" := by
  refine ⟨rfl, rfl, ?_⟩; decide

/-- The final counter of a run is the start counter plus the number of
calls: every cyclic call increments the shared counter exactly once. -/
theorem runCalls_counter (cs : List CycList) (n : Nat) :
    (runCalls cs n).2 = n + cs.length := by
  induction cs generalizing n with
  | nil => rfl
  | cons c cs ih =>
    show (runCalls cs (n + 1)).2 = n + (cs.length + 1)
    rw [ih (n + 1)]
    omega

/-- The phrase returned by the call at position length of pre is the
list of that call indexed by the shared counter value at that moment,
modulo the list length. -/
theorem runCalls_get (pre post : List CycList) (c : CycList) (n : Nat) :
    (runCalls (pre ++ c :: post) n).1.getD pre.length ""
      = (listOf c).getD ((n + pre.length) % (listOf c).length) "" := by
  induction pre generalizing n with
  | nil => simp [runCalls, getCyclicResponse]
  | cons p pre ih =>
    rw [List.cons_append]
    show ((getCyclicResponse (listOf p) n).1
        :: (runCalls (pre ++ c :: post) (n + 1)).1).getD (pre.length + 1) "" = _
    have hx : n + 1 + pre.length = n + (p :: pre).length := by
      simp only [List.length_cons]
      omega
    rw [List.getD_cons_succ, ih (n + 1), hx]

/-- C3 amended: the three cyclic lists share the single counter
response_count, incremented by every cyclic call; the phrase returned
by a call is its list indexed by the total number of previous cyclic
calls of any list, modulo that list length, and the counter ends at
the start value plus the number of calls. -/
theorem cyclic_counter_shared (pre post : List CycList) (c : CycList) (n : Nat) :
    (runCalls (pre ++ c :: post) n).1.getD pre.length ""
      = (listOf c).getD ((n + pre.length) % (listOf c).length) ""
    ∧ (runCalls (pre ++ c :: post) n).2 = n + pre.length + post.length + 1 := by
  constructor
  · exact runCalls_get pre post c n
  · rw [runCalls_counter]
    simp only [List.length_append, List.length_cons]
    omega

/-- C2 counterexample: the facility scan of extract_entities also
recognizes gym, hospital and bus, so extraction can return a facility
value outside the canonical six-element enumeration of the data model. -/
theorem facility_outside_enumeration_counterexample :
    (extractEntities "monday" "tuesday" "gym").facility = some "gym"
    ∧ "gym" ∉ ["library", "canteen", "hostel", "sports", "medical", "transport"] := by
  refine ⟨rfl, ?_⟩; decide

/-- A value found by firstMatch is one of the table values. -/
theorem firstMatch_mem_values (maps : List (String × String)) (t : List Char)
    (v : String) (h : firstMatch maps t = some v) :
    v ∈ maps.map (fun kv => kv.2) := by
  unfold firstMatch at h
  rcases Option.map_eq_some'.mp h with ⟨kv, hfind, hv⟩
  exact hv ▸ List.mem_map_of_mem _ (List.mem_of_find?_eq_some hfind)

/-- C2 amended: provided the construction-time today and tomorrow
values are weekday names, each entity field is either none or a value
of its enumeration, where the facility enumeration is the full
nine-element scan list of the source, which extends the six canonical
facilities with gym, hospital and bus. -/
theorem extract_entities_enumerations (todayName tomorrowName text : String)
    (h1 : todayName ∈ weekdays) (h2 : tomorrowName ∈ weekdays) :
    (∀ d, (extractEntities todayName tomorrowName text).department = some d → d ∈ deptCodes)
    ∧ (∀ d, (extractEntities todayName tomorrowName text).day = some d → d ∈ weekdays)
    ∧ (∀ f, (extractEntities todayName tomorrowName text).facility = some f →
        f ∈ facilitiesList) := by
  refine ⟨?_, ?_, ?_⟩
  · intro d h
    have hv := firstMatch_mem_values _ _ _ h
    have hall : ∀ v ∈ departmentMappings.map (fun kv => kv.2), v ∈ deptCodes := by decide
    exact hall d hv
  · intro d h
    have hv := firstMatch_mem_values _ _ _ h
    simp only [dayMappings, List.map_cons, List.map_nil, List.mem_cons,
      List.not_mem_nil, or_false] at hv
    rcases hv with rfl | rfl | rfl | rfl | rfl | rfl | rfl | rfl | rfl | rfl | rfl | rfl | rfl | rfl | rfl | rfl <;>
      first | exact h1 | exact h2 | decide
  · intro f h
    have h' : facilitiesList.find?
        (fun x => containsList x.data (preprocessText text).data) = some f := h
    exact List.mem_of_find?_eq_some h'

/-- C4 counterexample: the today and tomorrow aliases are resolved by
the constructor of IntentProcessor, not by extract_entities.  For an
extractor constructed on a monday, a later call on a wednesday with a
text whose first matching day alias is today still yields monday,
whereas the claim demands the weekday of the call date, wednesday. -/
theorem relative_day_construction_time_counterexample :
    (extractEntities "monday" "tuesday" "what do i have today").day = some "monday"
    ∧ "monday" ≠ "wednesday" := by
  refine ⟨rfl, ?_⟩; decide

/-- C4 amended: relative day words resolve against the wall-clock date
at extractor construction time: a text containing the alias today maps
to the construction-time today value, and a text containing tomorrow
but not today maps to the construction-time tomorrow value, whatever
the date of the extract call. -/
theorem relative_day_construction_time (todayName tomorrowName text : String) :
    (containsList "today".data (preprocessText text).data = true →
      (extractEntities todayName tomorrowName text).day = some todayName)
    ∧ (containsList "today".data (preprocessText text).data = false →
       containsList "tomorrow".data (preprocessText text).data = true →
      (extractEntities todayName tomorrowName text).day = some tomorrowName) := by
  constructor
  · intro h
    show firstMatch (dayMappings todayName tomorrowName) (preprocessText text).data
      = some todayName
    have hp : (fun kv : String × String =>
        containsList kv.1.data (preprocessText text).data) ("today", todayName) = true := h
    unfold firstMatch dayMappings
    rw [List.find?_cons_of_pos
      (p := fun kv : String × String => containsList kv.1.data (preprocessText text).data) _ hp]
    rfl
  · intro h0 h1
    show firstMatch (dayMappings todayName tomorrowName) (preprocessText text).data
      = some tomorrowName
    have hn : ¬ ((fun kv : String × String =>
        containsList kv.1.data (preprocessText text).data) ("today", todayName) = true) := by
      rw [Bool.not_eq_true]
      exact h0
    have hp : (fun kv : String × String =>
        containsList kv.1.data (preprocessText text).data) ("tomorrow", tomorrowName) = true := h1
    unfold firstMatch dayMappings
    rw [List.find?_cons_of_neg
        (p := fun kv : String × String => containsList kv.1.data (preprocessText text).data) _ hn,
      List.find?_cons_of_pos
        (p := fun kv : String × String => containsList kv.1.data (preprocessText text).data) _ hp]
    rfl

/-- C6 counterexample: special characters are removed after whitespace
has been collapsed and stripped, so their removal can leave adjacent
spaces or a leading space in the result; the outputs below violate the
claimed collapsed-whitespace and no-leading-whitespace properties. -/
theorem preprocess_whitespace_counterexample :
    preprocessText "a ! b" = "a  b"
    ∧ adjacentWS (preprocessText "a ! b").data = true
    ∧ preprocessText "! a" = " a" := by
  exact ⟨rfl, rfl, rfl⟩

/-- Characters produced by the whitespace-collapsing pass are either a
single space or non-whitespace characters of the input. -/
theorem collapseAux_mem (l : List Char) : ∀ (b : Bool) (c : Char),
    c ∈ collapseAux b l → c = ' ' ∨ (c ∈ l ∧ isSpaceChar c = false) := by
  induction l with
  | nil => intro b c h; cases h
  | cons x rest ih =>
    intro b c h
    cases hx : isSpaceChar x with
    | false =>
      simp only [collapseAux, hx, Bool.false_eq_true, if_false, List.mem_cons] at h
      rcases h with rfl | h
      · exact Or.inr ⟨List.mem_cons_self _ _, hx⟩
      · rcases ih false c h with h' | ⟨hm, hns⟩
        · exact Or.inl h'
        · exact Or.inr ⟨List.mem_cons_of_mem _ hm, hns⟩
    | true =>
      cases b with
      | false =>
        simp only [collapseAux, hx, if_true, Bool.false_eq_true, if_false,
          List.mem_cons] at h
        rcases h with rfl | h
        · exact Or.inl rfl
        · rcases ih true c h with h' | ⟨hm, hns⟩
          · exact Or.inl h'
          · exact Or.inr ⟨List.mem_cons_of_mem _ hm, hns⟩
      | true =>
        simp only [collapseAux, hx, if_true] at h
        rcases ih true c h with h' | ⟨hm, hns⟩
        · exact Or.inl h'
        · exact Or.inr ⟨List.mem_cons_of_mem _ hm, hns⟩

/-- Characters surviving the strip pass are characters of the input. -/
theorem stripList_mem (l : List Char) (c : Char) (h : c ∈ stripList l) : c ∈ l := by
  unfold stripList at h
  rw [List.mem_reverse] at h
  have h1 := (List.dropWhile_sublist (l := (l.dropWhile isSpaceChar).reverse)
    (p := isSpaceChar)).mem h
  rw [List.mem_reverse] at h1
  exact (List.dropWhile_sublist (l := l) (p := isSpaceChar)).mem h1

/-- C6 amended: normalize lower-cases and strips and collapses the
whitespace of its input before removing special characters, so every
output character is a word character, an apostrophe, or a space, and
every output character is a space or the lower-casing of an input
character; the special-character removal can, however, leave adjacent
or leading or trailing spaces.  Empty or absent input yields the empty
string, and the function is total. -/
theorem preprocess_character_invariants (s : String) :
    ((preprocessText s).data.all fun c => isWordChar c || c == ' ' || c == '\x27') = true
    ∧ ((preprocessText s).data.all fun c => c == ' ' || (s.data.map lowerChar).contains c) = true
    ∧ preprocessText "" = "" ∧ preprocessTextOpt none = "" := by
  refine ⟨?_, ?_, rfl, rfl⟩ <;>
    (rw [List.all_eq_true]
     intro c hc
     unfold preprocessText at hc
     by_cases hs : s.isEmpty)
  · rw [if_pos hs] at hc
    cases hc
  · rw [if_neg hs] at hc
    have hc' : c ∈ removeSpecial (collapseWS (stripList (s.data.map lowerChar))) := hc
    have hcc := List.mem_filter.mp hc'
    have hmem := hcc.1
    have hcond := hcc.2
    rcases collapseAux_mem _ _ _ hmem with rfl | hr
    · simp
    · rw [hr.2] at hcond
      simp only [Bool.or_false] at hcond
      rcases Bool.or_eq_true_iff.mp hcond with hw | ha
      · simp [hw]
      · simp [ha]
  · rw [if_pos hs] at hc
    cases hc
  · rw [if_neg hs] at hc
    have hc' : c ∈ removeSpecial (collapseWS (stripList (s.data.map lowerChar))) := hc
    have hmem := (List.mem_filter.mp hc').1
    rcases collapseAux_mem _ _ _ hmem with rfl | hr
    · simp
    · have hin : c ∈ s.data.map lowerChar := stripList_mem _ _ hr.1
      have hct : (s.data.map lowerChar).contains c = true := List.elem_eq_true_of_mem hin
      rw [hct, Bool.or_true]

/-- Witness for the amended entity enumeration theorem at a concrete
extractor state and text. -/
theorem extract_entities_enumerations_witness :
    ("monday" ∈ weekdays) ∧ ("tuesday" ∈ weekdays)
    ∧ ("friday" ∈ weekdays) ∧ ("CSE" ∈ deptCodes) :=
  ⟨by decide, by decide,
    (extract_entities_enumerations "monday" "tuesday" "cse class on friday"
      (by decide) (by decide)).2.1 "friday" (by decide),
    (extract_entities_enumerations "monday" "tuesday" "cse class on friday"
      (by decide) (by decide)).1 "CSE" (by decide)⟩

/-- Witness for the amended construction-time day resolution theorem
at a concrete extractor state and text. -/
theorem relative_day_construction_time_witness :
    containsList "today".data (preprocessText "classes today").data = true
    ∧ (extractEntities "monday" "tuesday" "classes today").day = some "monday" :=
  ⟨by decide,
    (relative_day_construction_time "monday" "tuesday" "classes today").1 (by decide)⟩

/-- C7 counterexample: get_faq_answer lowers only the query, never the
stored keywords, so a keyword containing an upper-case letter is never
counted even when it occurs case-insensitively in the query; the
claimed case-insensitive scoring would give this record score one and
return it, but the source returns nothing. -/
theorem faq_case_insensitive_counterexample :
    getFaqAnswer [⟨["Leave"], "q", "a"⟩] "how to apply for leave" = none
    ∧ ciContains "how to apply for leave" "Leave" = true := by
  exact ⟨rfl, rfl⟩

/-- Invariant of the FAQ accumulation loop: starting from any
accumulator, the loop returns the first record attaining the maximal
score of the scanned records whenever that maximum strictly exceeds the
starting score, and the unchanged accumulator otherwise. -/
theorem faqFold_inv (ql : List Char) (qs : List Faq) : ∀ (b : Option Faq) (s : Nat),
    faqFold ql qs b s =
      if listFaqMax ql qs > s
      then (qs.find? (fun x => faqScore x ql == listFaqMax ql qs), listFaqMax ql qs)
      else (b, s) := by
  induction qs with
  | nil =>
    intro b s
    have h0 : listFaqMax ql [] = 0 := rfl
    rw [h0, if_neg (Nat.not_lt.mpr (Nat.zero_le s))]
    rfl
  | cons f rest ih =>
    intro b s
    have hmax : listFaqMax ql (f :: rest) = Nat.max (faqScore f ql) (listFaqMax ql rest) := rfl
    by_cases h1 : faqScore f ql > s
    · have hstep : faqFold ql (f :: rest) b s
          = if faqScore f ql > s then faqFold ql rest (some f) (faqScore f ql)
            else faqFold ql rest b s := by
        simp only [faqFold]
      rw [hstep, if_pos h1, ih, hmax]
      by_cases h2 : listFaqMax ql rest > faqScore f ql
      · have hM : Nat.max (faqScore f ql) (listFaqMax ql rest) = listFaqMax ql rest :=
          Nat.max_eq_right (Nat.le_of_lt h2)
        rw [if_pos h2, hM, if_pos (Nat.lt_trans h1 h2)]
        have hne : (fun x => faqScore x ql == listFaqMax ql rest) f = false :=
          beq_eq_false_iff_ne.mpr (Nat.ne_of_lt h2)
        rw [List.find?_cons_of_neg
          (p := fun x => faqScore x ql == listFaqMax ql rest) _ (by rw [hne]; exact Bool.false_ne_true)]
      · have hle : listFaqMax ql rest ≤ faqScore f ql := Nat.not_lt.mp h2
        have hM : Nat.max (faqScore f ql) (listFaqMax ql rest) = faqScore f ql :=
          Nat.max_eq_left hle
        rw [if_neg h2, hM, if_pos h1]
        have hpf : (fun x => faqScore x ql == faqScore f ql) f = true := beq_self_eq_true _
        rw [List.find?_cons_of_pos
          (p := fun x => faqScore x ql == faqScore f ql) _ hpf]
    · have hstep : faqFold ql (f :: rest) b s
          = if faqScore f ql > s then faqFold ql rest (some f) (faqScore f ql)
            else faqFold ql rest b s := by
        simp only [faqFold]
      have hfs : faqScore f ql ≤ s := Nat.not_lt.mp h1
      rw [hstep, if_neg h1, ih, hmax]
      by_cases h2 : listFaqMax ql rest > s
      · have hM : Nat.max (faqScore f ql) (listFaqMax ql rest) = listFaqMax ql rest :=
          Nat.max_eq_right (Nat.le_of_lt (Nat.lt_of_le_of_lt hfs h2))
        rw [if_pos h2, hM, if_pos h2]
        have hne : faqScore f ql ≠ listFaqMax ql rest :=
          Nat.ne_of_lt (Nat.lt_of_le_of_lt hfs h2)
        have hnf : (fun x => faqScore x ql == listFaqMax ql rest) f = false :=
          beq_eq_false_iff_ne.mpr hne
        rw [List.find?_cons_of_neg
          (p := fun x => faqScore x ql == listFaqMax ql rest) _ (by rw [hnf]; exact Bool.false_ne_true)]
      · have hle2 : listFaqMax ql rest ≤ s := Nat.not_lt.mp h2
        rw [if_neg h2, if_neg (Nat.not_lt.mpr (Nat.max_le.mpr ⟨hfs, hle2⟩))]

/-- C7 amended: the FAQ search scores each record by the number of its
keywords occurring verbatim as substrings of the lowered query (the
stored keywords are not lowered), returns the rendered record with the
maximal positive score, the first of the store order on ties, and
returns nothing when no record has a positive score. -/
theorem faq_search_first_max (store : List Faq) (query : String) :
    (listFaqMax (strLower query).data store = 0 → getFaqAnswer store query = none)
    ∧ (∀ f, 0 < listFaqMax (strLower query).data store →
        store.find? (fun x =>
          faqScore x (strLower query).data == listFaqMax (strLower query).data store) = some f →
        getFaqAnswer store query = some (fmtFaq f)) := by
  constructor
  · intro h0
    have hf := faqFold_inv (strLower query).data store none 0
    rw [h0, if_neg (Nat.lt_irrefl 0)] at hf
    unfold getFaqAnswer
    rw [hf]
  · intro f hM hfind
    have hf := faqFold_inv (strLower query).data store none 0
    rw [if_pos hM, hfind] at hf
    unfold getFaqAnswer
    rw [hf]
    simp only [if_pos hM]

/-- Witness for the amended FAQ search theorem on a concrete store and
query. -/
theorem faq_search_first_max_witness :
    0 < listFaqMax (strLower "how do i apply for leave").data
        [⟨["leave", "fee"], "LeaveQ", "LeaveA"⟩, ⟨["exam"], "ExamQ", "ExamA"⟩]
    ∧ getFaqAnswer [⟨["leave", "fee"], "LeaveQ", "LeaveA"⟩, ⟨["exam"], "ExamQ", "ExamA"⟩]
        "how do i apply for leave"
      = some (fmtFaq ⟨["leave", "fee"], "LeaveQ", "LeaveA"⟩) :=
  ⟨by decide,
    (faq_search_first_max
        [⟨["leave", "fee"], "LeaveQ", "LeaveA"⟩, ⟨["exam"], "ExamQ", "ExamA"⟩]
        "how do i apply for leave").2
      ⟨["leave", "fee"], "LeaveQ", "LeaveA"⟩ (by decide) (by decide)⟩

/-- The selection fold returns the maximal score together with the
first intent of the list attaining it: the Python max over the
insertion-ordered dictionary resolves ties in declaration order. -/
theorem pickBest_spec (t : List Char) (ds : List IntentDef) (h : ds ≠ []) :
    ∃ d, firstWithScore t (listMaxScore t ds) ds = some d
      ∧ pickBest t ds = some (d, listMaxScore t ds) := by
  induction ds with
  | nil => exact absurd rfl h
  | cons d rest ih =>
    cases rest with
    | nil =>
      have hM : listMaxScore t [d] = intentScore d t := by
        show Nat.max (intentScore d t) 0 = intentScore d t
        exact Nat.max_zero _
      refine ⟨d, ?_, ?_⟩
      · unfold firstWithScore
        rw [hM]
        exact List.find?_cons_of_pos _ (beq_self_eq_true _)
      · show (match pickBest t [] with
          | none => some (d, intentScore d t)
          | some (d2, s2) =>
            if s2 > intentScore d t then some (d2, s2)
            else some (d, intentScore d t)) = some (d, listMaxScore t [d])
        rw [hM]
        rfl
    | cons e rest2 =>
      obtain ⟨d2, hfind, hpick⟩ := ih (by intro hx; cases hx)
      have hM : listMaxScore t (d :: e :: rest2)
          = Nat.max (intentScore d t) (listMaxScore t (e :: rest2)) := rfl
      have hstep : pickBest t (d :: e :: rest2)
          = match pickBest t (e :: rest2) with
            | none => some (d, intentScore d t)
            | some (d2, s2) =>
              if s2 > intentScore d t then some (d2, s2)
              else some (d, intentScore d t) := rfl
      by_cases hgt : listMaxScore t (e :: rest2) > intentScore d t
      · have hMr : listMaxScore t (d :: e :: rest2) = listMaxScore t (e :: rest2) := by
          rw [hM]
          exact Nat.max_eq_right (Nat.le_of_lt hgt)
        refine ⟨d2, ?_, ?_⟩
        · unfold firstWithScore
          rw [hMr]
          have hne : (fun x => intentScore x t == listMaxScore t (e :: rest2)) d = false :=
            beq_eq_false_iff_ne.mpr (Nat.ne_of_lt hgt)
          rw [List.find?_cons_of_neg
            (p := fun x => intentScore x t == listMaxScore t (e :: rest2)) _
            (by rw [hne]; exact Bool.false_ne_true)]
          exact hfind
        · rw [hstep, hpick, hMr]
          show (if listMaxScore t (e :: rest2) > intentScore d t
              then some (d2, listMaxScore t (e :: rest2))
              else some (d, intentScore d t)) = some (d2, listMaxScore t (e :: rest2))
          rw [if_pos hgt]
      · have hle : listMaxScore t (e :: rest2) ≤ intentScore d t := Nat.not_lt.mp hgt
        have hMl : listMaxScore t (d :: e :: rest2) = intentScore d t := by
          rw [hM]
          exact Nat.max_eq_left hle
        refine ⟨d, ?_, ?_⟩
        · unfold firstWithScore
          rw [hMl]
          exact List.find?_cons_of_pos _ (beq_self_eq_true _)
        · rw [hstep, hpick, hMl]
          show (if listMaxScore t (e :: rest2) > intentScore d t
              then some (d2, listMaxScore t (e :: rest2))
              else some (d, intentScore d t)) = some (d, intentScore d t)
          rw [if_neg hgt]

/-- An intent returned by the selection fold belongs to the scanned
list and carries its own score. -/
theorem pickBest_mem (t : List Char) (ds : List IntentDef) :
    ∀ d s, pickBest t ds = some (d, s) → d ∈ ds ∧ s = intentScore d t := by
  induction ds with
  | nil => intro d s h; cases h
  | cons a rest ih =>
    intro d s h
    have hstep : pickBest t (a :: rest)
        = match pickBest t rest with
          | none => some (a, intentScore a t)
          | some (d2, s2) =>
            if s2 > intentScore a t then some (d2, s2)
            else some (a, intentScore a t) := rfl
    rw [hstep] at h
    cases hp : pickBest t rest with
    | none =>
      rw [hp] at h
      have h1 := Option.some.inj h
      have hd : a = d := congrArg Prod.fst h1
      have hs : intentScore a t = s := congrArg Prod.snd h1
      subst hd
      exact ⟨List.mem_cons_self _ _, hs.symm⟩
    | some pr =>
      obtain ⟨d2, s2⟩ := pr
      rw [hp] at h
      have h' : (if s2 > intentScore a t then some (d2, s2)
          else some (a, intentScore a t)) = some (d, s) := h
      by_cases hgt : s2 > intentScore a t
      · rw [if_pos hgt] at h'
        have h1 := Option.some.inj h'
        have hd : d2 = d := congrArg Prod.fst h1
        have hs : s2 = s := congrArg Prod.snd h1
        have hm := ih d2 s2 hp
        rw [← hd, ← hs]
        exact ⟨List.mem_cons_of_mem _ hm.1, hm.2⟩
      · rw [if_neg hgt] at h'
        have h1 := Option.some.inj h'
        have hd : a = d := congrArg Prod.fst h1
        have hs : intentScore a t = s := congrArg Prod.snd h1
        subst hd
        exact ⟨List.mem_cons_self _ _, hs.symm⟩

/-- Characterization of identify_intent on a non-empty preprocessed
text in terms of the selection fold. -/
theorem identifyIntent_eq (text : String) (d : IntentDef) (s : Nat)
    (hb : (preprocessText text).data.isEmpty = false)
    (hp : pickBest (preprocessText text).data intents = some (d, s)) :
    identifyIntent text =
      if s > 0
      then (d.name, min ((s : ℚ)
        / ((d.keywords.length : ℚ) + 2 * (d.patterns.length : ℚ))) 1)
      else ("unknown", 0) := by
  simp only [identifyIntent]
  rw [hb, if_neg Bool.false_ne_true, hp]

/-- C1: the classifier scores every intent of the fixed table by one
point per keyword substring and two points per matching pattern
(intentScore), selects the intent with the maximal score with ties
resolved to the intent declared first (firstWithScore at the maximal
score), returns unknown with confidence zero when the maximal score is
zero and in particular on the empty query, and otherwise returns the
confidence min of score over keywords plus twice patterns and one. -/
theorem classifier_formula (text : String) :
    identifyIntent "" = ("unknown", (0 : ℚ))
    ∧ (listMaxScore (preprocessText text).data intents = 0 →
        identifyIntent text = ("unknown", 0))
    ∧ (∀ d, 0 < listMaxScore (preprocessText text).data intents →
        firstWithScore (preprocessText text).data
          (listMaxScore (preprocessText text).data intents) intents = some d →
        identifyIntent text = (d.name,
          min ((listMaxScore (preprocessText text).data intents : ℚ)
            / ((d.keywords.length : ℚ) + 2 * (d.patterns.length : ℚ))) 1)) := by
  refine ⟨rfl, ?_, ?_⟩
  · intro h0
    cases hb : (preprocessText text).data.isEmpty with
    | true =>
      simp only [identifyIntent]
      rw [if_pos hb]
    | false =>
      obtain ⟨d, _, hpick⟩ :=
        pickBest_spec (preprocessText text).data intents (by intro hx; cases hx)
      rw [h0] at hpick
      rw [identifyIntent_eq text d 0 hb hpick, if_neg (Nat.lt_irrefl 0)]
  · intro d hM hfind
    cases hb : (preprocessText text).data.isEmpty with
    | true =>
      exfalso
      have hnil : (preprocessText text).data = [] := List.isEmpty_iff.mp hb
      rw [hnil] at hM
      have hz : listMaxScore [] intents = 0 := by decide
      rw [hz] at hM
      exact Nat.lt_irrefl 0 hM
    | false =>
      obtain ⟨e, hfind2, hpick⟩ :=
        pickBest_spec (preprocessText text).data intents (by intro hx; cases hx)
      rw [hfind] at hfind2
      have hde : e = d := (Option.some.inj hfind2).symm
      rw [← hde]
      rw [identifyIntent_eq text e _ hb hpick, if_pos hM]

/-- Witness for the classifier formula theorem: on the query hello the
maximal score is positive, the first maximal intent is the greeting
entry of the table, and the classifier returns it with the normalized
confidence. -/
theorem classifier_formula_witness :
    0 < listMaxScore (preprocessText "hello").data intents
    ∧ firstWithScore (preprocessText "hello").data
        (listMaxScore (preprocessText "hello").data intents) intents
        = some (intents.getD 6 ⟨"", [], []⟩)
    ∧ identifyIntent "hello"
        = ((intents.getD 6 ⟨"", [], []⟩).name,
          min ((listMaxScore (preprocessText "hello").data intents : ℚ)
            / (((intents.getD 6 ⟨"", [], []⟩).keywords.length : ℚ)
              + 2 * ((intents.getD 6 ⟨"", [], []⟩).patterns.length : ℚ))) 1) :=
  ⟨by decide, by decide,
    (classifier_formula "hello").2.2 (intents.getD 6 ⟨"", [], []⟩) (by decide) (by decide)⟩

/-- C5: for every input the confidence is in the closed unit interval
and the intent is one of the nine enumerated names, with unknown the
default when nothing matches. -/
theorem classify_range_and_enum (text : String) :
    0 ≤ (identifyIntent text).2 ∧ (identifyIntent text).2 ≤ 1
    ∧ (identifyIntent text).1 ∈ ["timetable", "exam", "department", "facility",
        "event", "faq", "greeting", "exit", "unknown"] := by
  cases hb : (preprocessText text).data.isEmpty with
  | true =>
    have hval : identifyIntent text = ("unknown", 0) := by
      simp only [identifyIntent]
      rw [if_pos hb]
    rw [hval]
    refine ⟨le_refl 0, zero_le_one, ?_⟩
    simp
  | false =>
    cases hp : pickBest (preprocessText text).data intents with
    | none =>
      have hval : identifyIntent text = ("unknown", 0) := by
        simp only [identifyIntent]
        rw [hb, if_neg Bool.false_ne_true, hp]
      rw [hval]
      refine ⟨le_refl 0, zero_le_one, ?_⟩
      simp
    | some pr =>
      obtain ⟨d, s⟩ := pr
      have hmem := (pickBest_mem (preprocessText text).data intents d s hp).1
      have hval := identifyIntent_eq text d s hb hp
      by_cases hs : s > 0
      · rw [hval, if_pos hs]
        refine ⟨?_, ?_, ?_⟩
        · exact le_min (div_nonneg (Nat.cast_nonneg s)
            (by positivity)) zero_le_one
        · exact min_le_right _ _
        · have hall : ∀ x ∈ intents, x.name ∈ ["timetable", "exam", "department",
            "facility", "event", "faq", "greeting", "exit", "unknown"] := by decide
          exact hall d hmem
      · rw [hval, if_neg hs]
        refine ⟨le_refl 0, zero_le_one, ?_⟩
        simp

/-- C8: for a timetable query against a loaded store, the day resolves
to the explicit day entity, overridden by the tomorrow weekday whenever
the raw text contains the word tomorrow, defaulting to the current
weekday when neither is present; with no department entity the full day
renders as one block per department; and an unrecognized resolved day
yields the sunday holiday sentence or the no-timetable sentence, never
an exception: the handler is a total function. -/
theorem timetable_day_resolution (tt : Timetable) (currentDay tomorrowDay : String)
    (entities : EntitySet) (originalText : String) (rd : String)
    (htt : tt ≠ []) (htm : tomorrowDay ≠ "") (hde : entities.day ≠ some "")
    (hrd : rd = strLower (if containsList "tomorrow".data (strLower originalText).data
        then tomorrowDay else entities.day.getD currentDay)) :
    (alistFind tt rd = none →
      handleTimetable tt currentDay tomorrowDay entities originalText
        = if rd == "sunday" then "Sunday is a holiday. No classes scheduled."
          else "No timetable available for " ++ capitalize rd ++ ".")
    ∧ (∀ ds, alistFind tt rd = some ds → entities.department = none →
      handleTimetable tt currentDay tomorrowDay entities originalText
        = fmtFullDay rd ds) := by
  have hne : tt.isEmpty = false := by
    cases tt with
    | nil => exact absurd rfl htt
    | cons x xs => rfl
  have hday : dayOrDefault currentDay
      (if containsList "tomorrow".data (strLower originalText).data then some tomorrowDay
       else entities.day)
      = (if containsList "tomorrow".data (strLower originalText).data then tomorrowDay
         else entities.day.getD currentDay) := by
    by_cases hc : containsList "tomorrow".data (strLower originalText).data = true
    · rw [if_pos hc, if_pos hc]
      show (if tomorrowDay == "" then currentDay else tomorrowDay) = tomorrowDay
      rw [if_neg]
      intro hbe
      exact htm (eq_of_beq hbe)
    · rw [if_neg hc, if_neg hc]
      cases hd : entities.day with
      | none => rfl
      | some dd =>
        show (if dd == "" then currentDay else dd) = dd
        rw [if_neg]
        intro hbe
        exact hde (by rw [hd, eq_of_beq hbe])
  have hht : handleTimetable tt currentDay tomorrowDay entities originalText
      = gtDay tt rd entities.department := by
    unfold handleTimetable getTimetable
    rw [hne, if_neg Bool.false_ne_true, hday, ← hrd]
  constructor
  · intro hnone
    rw [hht]
    unfold gtDay
    rw [hnone]
  · intro ds hsome hdep
    rw [hht]
    unfold gtDay
    rw [hsome, hdep]
    rfl

/-- Witness for the timetable day resolution theorem on a concrete
store, entity set and raw text. -/
theorem timetable_day_resolution_witness :
    alistFind (tinyTT) "friday" = none
    ∧ handleTimetable (tinyTT) "monday" "tuesday"
        ⟨none, some "friday", none, none⟩ "show classes for friday"
      = (if "friday" == "sunday" then "Sunday is a holiday. No classes scheduled."
         else "No timetable available for " ++ capitalize "friday" ++ ".") :=
  ⟨by decide,
    (timetable_day_resolution (tinyTT) "monday" "tuesday"
      ⟨none, some "friday", none, none⟩ "show classes for friday" "friday"
      (by decide) (by decide) (by decide) (by decide)).1 (by decide)⟩

end Campus
